import Mathlib

/-!
Verification of the e2sar-utils ROOT streaming pipeline (src/src/e2sar_root.cpp).

Shallow embedding of the pieces of the program the claims are about:
the record codec (serializeEvent), the batch accumulation / flush loop
(processRootFile), the enqueue retry loop and batch-ownership paths,
the shared atomic buffer-id counter, the receive loop (receiveEvents),
the lost-record drain loop, the output filename formatter
(formatFilename) and the aggregation of exit statuses in main.

Doubles are modelled by their 64-bit patterns (a natural number below
2^64); the codec copies raw bytes, so a bit pattern model captures the
bit-exactness of the round trip.  Byte buffers are lists of naturals
below 256.
-/

set_option maxHeartbeats 1000000

/-! ## Record codec (serializeEvent, e2sar_root.cpp lines 105-127) -/

/-- One four-vector as stored by the program: the 64-bit patterns of the
four doubles E, px, py, pz, in the order serializeEvent writes them. -/
structure LorentzVec where
  e : Nat
  px : Nat
  py : Nat
  pz : Nat
deriving DecidableEq, Repr

/-- A DalitzEvent: four four-vectors, in serializeEvent's field order. -/
structure DalitzEvent where
  pi_plus : LorentzVec
  pi_minus : LorentzVec
  gamma1 : LorentzVec
  gamma2 : LorentzVec
deriving DecidableEq, Repr

/-- A double's bit pattern fits in 64 bits. -/
def LorentzVec.valid (v : LorentzVec) : Prop :=
  v.e < 2 ^ 64 ∧ v.px < 2 ^ 64 ∧ v.py < 2 ^ 64 ∧ v.pz < 2 ^ 64

/-- A valid record: all sixteen doubles are representable 64-bit patterns. -/
def DalitzEvent.valid (ev : DalitzEvent) : Prop :=
  ev.pi_plus.valid ∧ ev.pi_minus.valid ∧ ev.gamma1.valid ∧ ev.gamma2.valid

/-- Little-endian byte expansion of a machine word: n bytes of x. -/
def toBytesAux : Nat → Nat → List Nat
  | 0, _ => []
  | n + 1, x => x % 256 :: toBytesAux n (x / 256)

/-- The 8 bytes a double occupies in the output buffer. -/
def bytesOfDouble (x : Nat) : List Nat :=
  toBytesAux 8 x

/-- Little-endian byte recomposition. -/
def fromBytes : List Nat → Nat
  | [] => 0
  | b :: rest => b + 256 * fromBytes rest

/-- serializeEvent: pack 16 doubles (4 particles x 4 components each, in
the fixed order pi+, pi-, gamma1, gamma2 with components E, px, py, pz)
into a contiguous byte buffer. -/
def serializeEvent (ev : DalitzEvent) : List Nat :=
  bytesOfDouble ev.pi_plus.e ++ bytesOfDouble ev.pi_plus.px ++
  bytesOfDouble ev.pi_plus.py ++ bytesOfDouble ev.pi_plus.pz ++
  bytesOfDouble ev.pi_minus.e ++ bytesOfDouble ev.pi_minus.px ++
  bytesOfDouble ev.pi_minus.py ++ bytesOfDouble ev.pi_minus.pz ++
  bytesOfDouble ev.gamma1.e ++ bytesOfDouble ev.gamma1.px ++
  bytesOfDouble ev.gamma1.py ++ bytesOfDouble ev.gamma1.pz ++
  bytesOfDouble ev.gamma2.e ++ bytesOfDouble ev.gamma2.px ++
  bytesOfDouble ev.gamma2.py ++ bytesOfDouble ev.gamma2.pz

/-- Decode failure cause. -/
inductive DecodeError where
  | invalidLength
deriving DecidableEq, Repr

/-- Read the i-th double (8 bytes, little endian) of a buffer. -/
def readDouble (buf : List Nat) (i : Nat) : Nat :=
  fromBytes ((buf.drop (8 * i)).take 8)

/-- Modelled from the spec: the Record Codec's decode
(`decode(128-byte buffer) -> record`, failing with `InvalidLength` if the
buffer is not exactly 128 bytes).  The repository ships only the encoder
(serializeEvent); the decoder is specified in spec section 4.1 and its
field order corroborated by the consumer in ersap_processor_actor.cpp,
which reads doubles 0-3 as pi+, 4-7 as pi-, 8-11 as gamma1, 12-15 as
gamma2, each as E, Px, Py, Pz. -/
def deserializeEvent (buf : List Nat) : Except DecodeError DalitzEvent :=
  if buf.length = 128 then
    .ok
      { pi_plus := ⟨readDouble buf 0, readDouble buf 1, readDouble buf 2, readDouble buf 3⟩
        pi_minus := ⟨readDouble buf 4, readDouble buf 5, readDouble buf 6, readDouble buf 7⟩
        gamma1 := ⟨readDouble buf 8, readDouble buf 9, readDouble buf 10, readDouble buf 11⟩
        gamma2 := ⟨readDouble buf 12, readDouble buf 13, readDouble buf 14, readDouble buf 15⟩ }
  else
    .error .invalidLength

theorem toBytesAux_length (n x : Nat) : (toBytesAux n x).length = n := by
  induction n generalizing x with
  | zero => rfl
  | succ n ih => simp [toBytesAux, ih]

theorem bytesOfDouble_length (x : Nat) : (bytesOfDouble x).length = 8 :=
  toBytesAux_length 8 x

theorem fromBytes_toBytesAux (n : Nat) : ∀ x : Nat, x < 256 ^ n →
    fromBytes (toBytesAux n x) = x := by
  induction n with
  | zero =>
      intro x hx
      interval_cases x
      rfl
  | succ n ih =>
      intro x hx
      have hdiv : x / 256 < 256 ^ n := by
        rw [Nat.div_lt_iff_lt_mul (by norm_num)]
        calc x < 256 ^ (n + 1) := hx
        _ = 256 ^ n * 256 := by ring
      simp [toBytesAux, fromBytes, ih (x / 256) hdiv]
      omega

theorem fromBytes_bytesOfDouble (x : Nat) (hx : x < 2 ^ 64) :
    fromBytes (bytesOfDouble x) = x := by
  have h : x < 256 ^ 8 := by norm_num at hx ⊢; exact hx
  exact fromBytes_toBytesAux 8 x h

theorem serializeEvent_length (ev : DalitzEvent) :
    (serializeEvent ev).length = 128 := by
  simp [serializeEvent, bytesOfDouble_length]

/-- The sixteen 64-bit patterns of a record, in serializeEvent's order. -/
def eventWords (ev : DalitzEvent) : List Nat :=
  [ev.pi_plus.e, ev.pi_plus.px, ev.pi_plus.py, ev.pi_plus.pz,
   ev.pi_minus.e, ev.pi_minus.px, ev.pi_minus.py, ev.pi_minus.pz,
   ev.gamma1.e, ev.gamma1.px, ev.gamma1.py, ev.gamma1.pz,
   ev.gamma2.e, ev.gamma2.px, ev.gamma2.py, ev.gamma2.pz]

theorem serializeEvent_eq_join (ev : DalitzEvent) :
    serializeEvent ev = ((eventWords ev).map bytesOfDouble).flatten := by
  simp [serializeEvent, eventWords]

theorem readDouble_join (ws : List Nat) : ∀ (i : Nat) (h : i < ws.length),
    (∀ w ∈ ws, w < 2 ^ 64) →
    readDouble ((ws.map bytesOfDouble).flatten) i = ws.get ⟨i, h⟩ := by
  induction ws with
  | nil => intro i h; simp at h
  | cons w rest ih =>
      intro i h hbound
      cases i with
      | zero =>
          show readDouble (bytesOfDouble w ++ (rest.map bytesOfDouble).flatten) 0 = w
          unfold readDouble
          rw [Nat.mul_zero, List.drop_zero, List.take_left' (bytesOfDouble_length w)]
          exact fromBytes_bytesOfDouble w (hbound w (by simp))
      | succ j =>
          show readDouble (bytesOfDouble w ++ (rest.map bytesOfDouble).flatten) (j + 1) = _
          unfold readDouble
          have h8 : 8 * (j + 1) = 8 + 8 * j := by ring
          rw [h8, ← List.drop_drop, List.drop_left' (bytesOfDouble_length w)]
          have hj : j < rest.length := by simpa using h
          have hrec := ih j hj (fun w hw => hbound w (by simp [hw]))
          unfold readDouble at hrec
          exact hrec

theorem deserialize_serialize (ev : DalitzEvent) (hv : ev.valid) :
    deserializeEvent (serializeEvent ev) = .ok ev := by
  have hw : ∀ w ∈ eventWords ev, w < 2 ^ 64 := by
    obtain ⟨⟨hv1, hv2, hv3, hv4⟩, ⟨hv5, hv6, hv7, hv8⟩,
            ⟨hv9, hv10, hv11, hv12⟩, ⟨hv13, hv14, hv15, hv16⟩⟩ := hv
    intro w hmem
    simp [eventWords] at hmem
    rcases hmem with h | h | h | h | h | h | h | h | h | h | h | h | h | h | h | h <;>
      subst h <;> assumption
  have hrd : ∀ (i : Nat) (h : i < 16),
      readDouble (serializeEvent ev) i
        = (eventWords ev).get ⟨i, by simp only [eventWords, List.length]; omega⟩ := by
    intro i h
    rw [serializeEvent_eq_join]
    exact readDouble_join (eventWords ev) i (by simp only [eventWords, List.length]; omega) hw
  rw [deserializeEvent, if_pos (serializeEvent_length ev)]
  rw [hrd 0 (by norm_num), hrd 1 (by norm_num), hrd 2 (by norm_num),
      hrd 3 (by norm_num), hrd 4 (by norm_num), hrd 5 (by norm_num),
      hrd 6 (by norm_num), hrd 7 (by norm_num), hrd 8 (by norm_num),
      hrd 9 (by norm_num), hrd 10 (by norm_num), hrd 11 (by norm_num),
      hrd 12 (by norm_num), hrd 13 (by norm_num), hrd 14 (by norm_num),
      hrd 15 (by norm_num)]
  rfl

/-- C5: for every valid record r, decode(encode(r)) == r bit-exactly; encode
produces exactly 128 bytes (16 doubles in the fixed order pi+, pi-, gamma1,
gamma2, components E, px, py, pz each); decode fails with InvalidLength on
any buffer whose length is not exactly 128 bytes. -/
theorem codec_roundtrip_claim :
    (∀ ev : DalitzEvent, (serializeEvent ev).length = 128) ∧
    (∀ ev : DalitzEvent, ev.valid → deserializeEvent (serializeEvent ev) = .ok ev) ∧
    (∀ buf : List Nat, buf.length ≠ 128 → deserializeEvent buf = .error .invalidLength) := by
  refine ⟨serializeEvent_length, deserialize_serialize, ?_⟩
  intro buf hbuf
  rw [deserializeEvent, if_neg hbuf]

/-- Witness for C5 at a concrete record and a concrete short buffer. -/
theorem codec_roundtrip_claim_witness :
    (serializeEvent ⟨⟨1, 2, 3, 4⟩, ⟨5, 6, 7, 8⟩, ⟨9, 10, 11, 12⟩, ⟨13, 14, 15, 16⟩⟩).length = 128 ∧
    DalitzEvent.valid ⟨⟨1, 2, 3, 4⟩, ⟨5, 6, 7, 8⟩, ⟨9, 10, 11, 12⟩, ⟨13, 14, 15, 16⟩⟩ ∧
    deserializeEvent (serializeEvent ⟨⟨1, 2, 3, 4⟩, ⟨5, 6, 7, 8⟩, ⟨9, 10, 11, 12⟩, ⟨13, 14, 15, 16⟩⟩)
      = .ok ⟨⟨1, 2, 3, 4⟩, ⟨5, 6, 7, 8⟩, ⟨9, 10, 11, 12⟩, ⟨13, 14, 15, 16⟩⟩ ∧
    ([0, 1, 2] : List Nat).length ≠ 128 ∧
    deserializeEvent [0, 1, 2] = .error .invalidLength := by
  refine ⟨codec_roundtrip_claim.1 _, ?_, ?_, by decide, codec_roundtrip_claim.2.2 _ (by decide)⟩
  · norm_num [DalitzEvent.valid, LorentzVec.valid]
  · exact codec_roundtrip_claim.2.1 _ (by norm_num [DalitzEvent.valid, LorentzVec.valid])

/-! ## Batch accumulation loop (processRootFile, e2sar_root.cpp lines 762-859)

The streaming loop reads `nEntries` records one at a time, appends each to
the current batch, and flushes when `events_in_batch >= BATCH_SIZE_EVENTS`
or the record is the last one (`i == nEntries - 1`).  We model the loop by
the number of records still to read (`i == nEntries - 1` is `remaining
after this record = 0`) and the current in-batch count, and return the
list of flushed batch record-counts in flush order. -/

/-- One step per record: count the record into the batch; flush when the
batch reached capacity `cap` or the stream is exhausted. -/
def sendGo (cap : Nat) : Nat → Nat → List Nat
  | 0, _ => []
  | r + 1, count =>
      let c := count + 1
      if cap ≤ c ∨ r = 0 then c :: sendGo cap r 0 else sendGo cap r c

/-- The record counts of the batches flushed for a stream of `n` records
with capacity `cap` (processRootFile's read-send loop). -/
def batchSizes (n cap : Nat) : List Nat :=
  sendGo cap n 0

theorem sendGo_one (cap count : Nat) : sendGo cap 1 count = [count + 1] := by
  simp [sendGo]

theorem sendGo_step_full (cap count s : Nat) (hfull : cap ≤ count + 1) :
    sendGo cap (s + 2) count = (count + 1) :: sendGo cap (s + 1) 0 := by
  simp [sendGo, hfull]

theorem sendGo_step_partial (cap count s : Nat) (hpart : ¬ cap ≤ count + 1) :
    sendGo cap (s + 2) count = sendGo cap (s + 1) (count + 1) := by
  simp [sendGo, hpart]

theorem sendGo_sum (cap : Nat) (hcap : 1 ≤ cap) :
    ∀ (r : Nat) (count : Nat), count < cap → (sendGo cap (r + 1) count).sum = count + (r + 1) := by
  intro r
  induction r with
  | zero =>
      intro count _
      rw [sendGo_one]
      simp
  | succ s ih =>
      intro count hcount
      by_cases hfull : cap ≤ count + 1
      · rw [show s + 1 + 1 = s + 2 from rfl, sendGo_step_full cap count s hfull,
            List.sum_cons, ih 0 hcap]
        omega
      · rw [show s + 1 + 1 = s + 2 from rfl, sendGo_step_partial cap count s hfull,
            ih (count + 1) (by omega)]
        omega

theorem sendGo_length (cap : Nat) (hcap : 1 ≤ cap) :
    ∀ (r : Nat) (count : Nat), count < cap →
      (sendGo cap (r + 1) count).length = (count + r + 1 + cap - 1) / cap := by
  intro r
  induction r with
  | zero =>
      intro count hcount
      rw [sendGo_one]
      have hdiv : (count + 0 + 1 + cap - 1) / cap = 1 := by
        apply Nat.div_eq_of_lt_le <;> omega
      rw [hdiv]
      rfl
  | succ s ih =>
      intro count hcount
      by_cases hfull : cap ≤ count + 1
      · rw [show s + 1 + 1 = s + 2 from rfl, sendGo_step_full cap count s hfull,
            List.length_cons, ih 0 hcap]
        have harith : count + (s + 1) + 1 + cap - 1 = (0 + s + 1 + cap - 1) + cap := by
          omega
        rw [harith, Nat.add_div_right _ (by omega)]
      · rw [show s + 1 + 1 = s + 2 from rfl, sendGo_step_partial cap count s hfull,
            ih (count + 1) (by omega)]
        congr 1
        omega

/-- C2: for a stream of n records with batch capacity cap >= 1, the send
loop flushes exactly ceil(n / cap) batches whose record counts sum to n
(no record dropped or duplicated); a stream with 0 < n < cap records
flushes exactly once, as the single short batch [n]. -/
theorem batch_count_claim (n cap : Nat) (hcap : 1 ≤ cap) :
    (batchSizes n cap).length = (n + cap - 1) / cap ∧
    (batchSizes n cap).sum = n ∧
    (0 < n → n < cap → batchSizes n cap = [n]) := by
  refine ⟨?_, ?_, ?_⟩
  · cases n with
    | zero =>
        show (sendGo cap 0 0).length = (0 + cap - 1) / cap
        rw [show (sendGo cap 0 0) = [] from rfl]
        have : (0 + cap - 1) / cap = 0 := Nat.div_eq_of_lt (by omega)
        rw [this]
        rfl
    | succ m =>
        rw [batchSizes, sendGo_length cap hcap m 0 (by omega)]
        congr 1
        omega
  · cases n with
    | zero => rfl
    | succ m =>
        rw [batchSizes, sendGo_sum cap hcap m 0 (by omega)]
        omega
  · intro hpos hlt
    have hlen : (batchSizes n cap).length = 1 := by
      cases n with
      | zero => omega
      | succ m =>
          rw [batchSizes, sendGo_length cap hcap m 0 (by omega)]
          apply Nat.div_eq_of_lt_le <;> omega
    have hsum : (batchSizes n cap).sum = n := by
      cases n with
      | zero => omega
      | succ m =>
          rw [batchSizes, sendGo_sum cap hcap m 0 (by omega)]
          omega
    match hbs : batchSizes n cap with
    | [] => rw [hbs] at hlen; simp at hlen
    | [x] => rw [hbs] at hsum; simp at hsum; rw [hsum]
    | x :: y :: rest => rw [hbs] at hlen; simp at hlen

/-- Witness for C2: 5 records at capacity 2 flush as [2, 2, 1]; 3 records
at capacity 8 flush exactly once as the short batch [3]. -/
theorem batch_count_claim_witness :
    (batchSizes 5 2).length = (5 + 2 - 1) / 2 ∧ (batchSizes 5 2).sum = 5 ∧
    batchSizes 3 8 = [3] := by
  refine ⟨(batch_count_claim 5 2 (by norm_num)).1,
          (batch_count_claim 5 2 (by norm_num)).2.1,
          (batch_count_claim 3 8 (by norm_num)).2.2 (by norm_num) (by norm_num)⟩

/-! ## Enqueue retry loop (processRootFile, e2sar_root.cpp lines 799-830)

The loop `while (!sent && retry_count < MAX_RETRIES)` calls
`segmenter->addToSendQueue(...)`.  A `MemoryError` result (send queue at
capacity) sleeps 100 microseconds, increments `retry_count` and retries;
any other error is fatal for the stream; success sets `sent`.  Attempt
outcomes are modelled as a function from the attempt index (equal to the
current `retry_count`) to the transport's answer. -/

/-- The transport's answer to one addToSendQueue call. -/
inductive SendAttempt where
  | success
  | queueFull
  | otherError
deriving DecidableEq, Repr

/-- MAX_RETRIES in processRootFile. -/
def MAX_RETRIES : Nat := 10000

/-- The sleep between queue-full retries, in microseconds. -/
def retrySleepMicroseconds : Nat := 100

/-- How one batch's retry loop ended.  `sent k s`: the batch was enqueued
exactly once, after `k` addToSendQueue calls and `s` backpressure sleeps.
`fatalOther k`: a non-transient error after `k` calls; the stream aborts.
`exhausted k`: the loop gave up with `sent == false` after `k` calls. -/
inductive SendFinal where
  | sent (enqueueCalls : Nat) (sleeps : Nat)
  | fatalOther (enqueueCalls : Nat)
  | exhausted (enqueueCalls : Nat)
deriving DecidableEq, Repr

/-- The retry loop, with `fuel = MAX_RETRIES - retry_count` and `k` the
current retry count (equal to the number of calls made so far, since the
count is incremented exactly once per queue-full call). -/
def retryGo (outcome : Nat → SendAttempt) : Nat → Nat → SendFinal
  | 0, k => .exhausted k
  | fuel + 1, k =>
      match outcome k with
      | .success => .sent (k + 1) k
      | .otherError => .fatalOther (k + 1)
      | .queueFull => retryGo outcome fuel (k + 1)

/-- The whole retry loop for one batch: retry_count starts at 0 and the
loop runs while it is below MAX_RETRIES. -/
def retryLoop (outcome : Nat → SendAttempt) : SendFinal :=
  retryGo outcome MAX_RETRIES 0

theorem retryGo_all_full (outcome : Nat → SendAttempt) :
    ∀ (fuel k : Nat), (∀ j, j < k + fuel → outcome j = .queueFull) →
      retryGo outcome fuel k = .exhausted (k + fuel) := by
  intro fuel
  induction fuel with
  | zero => intro k _; rfl
  | succ f ih =>
      intro k hfull
      have hk : outcome k = .queueFull := hfull k (by omega)
      show (match outcome k with
            | .success => SendFinal.sent (k + 1) k
            | .otherError => SendFinal.fatalOther (k + 1)
            | .queueFull => retryGo outcome f (k + 1)) = _
      have harith : k + (f + 1) = (k + 1) + f := by omega
      rw [hk, harith]
      exact ih (k + 1) (fun j hj => hfull j (by omega))

theorem retryGo_prefix_full (outcome : Nat → SendAttempt) (K : Nat)
    (hfull : ∀ j, j < K → outcome j = .queueFull) (hsucc : outcome K = .success) :
    ∀ (fuel k : Nat), k ≤ K → K < k + fuel →
      retryGo outcome fuel k = .sent (K + 1) K := by
  intro fuel
  induction fuel with
  | zero => intro k _ h; omega
  | succ f ih =>
      intro k hk hlt
      show (match outcome k with
            | .success => SendFinal.sent (k + 1) k
            | .otherError => SendFinal.fatalOther (k + 1)
            | .queueFull => retryGo outcome f (k + 1)) = _
      by_cases hke : k = K
      · subst hke
        rw [hsucc]
      · have : outcome k = .queueFull := hfull k (by omega)
        rw [this]
        exact ih (k + 1) (by omega) (by omega)

/-- C3: if the transport reports queue-full for the first K attempts
(K < MAX_RETRIES = 10000) and then succeeds, the loop calls
addToSendQueue exactly K+1 times, sleeps exactly K times (100
microseconds each), and the batch is enqueued exactly once; if the
transport reports queue-full on every attempt, the loop stops after
exactly MAX_RETRIES = 10000 calls without enqueueing the batch. -/
theorem retry_backpressure_claim (outcome : Nat → SendAttempt) (K : Nat)
    (hK : K < MAX_RETRIES)
    (hfull : ∀ j, j < K → outcome j = .queueFull)
    (hsucc : outcome K = .success) :
    retryLoop outcome = .sent (K + 1) K ∧
    retrySleepMicroseconds = 100 ∧
    MAX_RETRIES = 10000 ∧
    (∀ g : Nat → SendAttempt, (∀ j, g j = .queueFull) →
      retryLoop g = .exhausted MAX_RETRIES) := by
  refine ⟨?_, rfl, rfl, ?_⟩
  · exact retryGo_prefix_full outcome K hfull hsucc MAX_RETRIES 0 (by omega) (by omega)
  · intro g hg
    have := retryGo_all_full g MAX_RETRIES 0 (fun j _ => hg j)
    simpa using this

/-- Witness for C3: the transport is full on attempts 0 and 1 and accepts
on attempt 2: three calls, two sleeps, one successful enqueue. -/
theorem retry_backpressure_claim_witness :
    retryLoop (fun j => if j < 2 then .queueFull else .success) = .sent 3 2 ∧
    retrySleepMicroseconds = 100 := by
  have h := retry_backpressure_claim (fun j => if j < 2 then .queueFull else .success) 2
    (by norm_num [MAX_RETRIES])
    (fun j hj => by simp [hj])
    (by norm_num)
  exact ⟨h.1, h.2.1⟩

/-! ## Batch ownership across the send hand-off
(freeBuffer, e2sar_root.cpp lines 160-163; processRootFile lines 803-843)

Each flushed batch is a heap-allocated vector.  The code has four ways to
dispose of it: a successful addToSendQueue transfers ownership to the
segmenter, which invokes the `freeBuffer` callback exactly once when the
bytes are no longer needed (the transport's documented contract for the
release callback, spec section 4.3); on a non-transient send error the
caller runs `delete batch; return false`; on retry exhaustion the caller
runs `delete batch; return false`; and in read-only mode (`!args.send_data`)
the caller runs `delete batch` without sending. -/

/-- The disposition of one flushed batch. -/
inductive BatchFate where
  | enqueued (enqueueCalls : Nat)
  | fatalSendError (enqueueCalls : Nat)
  | retryExhausted
  | neverSent
deriving DecidableEq, Repr

/-- What happens to one flushed batch: in send mode the retry loop decides;
in read-only mode the batch is deleted without being sent. -/
def batchFate (sendMode : Bool) (outcome : Nat → SendAttempt) : BatchFate :=
  if sendMode then
    match retryLoop outcome with
    | .sent calls _ => .enqueued calls
    | .fatalOther calls => .fatalSendError calls
    | .exhausted _ => .retryExhausted
  else
    .neverSent

/-- Releases of the batch's backing storage performed by the caller
(the `delete batch` statements in processRootFile). -/
def callerReleases : BatchFate → Nat
  | .enqueued _ => 0
  | .fatalSendError _ => 1
  | .retryExhausted => 1
  | .neverSent => 1

/-- Releases performed by the transport: the `freeBuffer` callback fires
exactly once for a successfully enqueued batch and never otherwise. -/
def transportReleases : BatchFate → Nat
  | .enqueued _ => 1
  | .fatalSendError _ => 0
  | .retryExhausted => 0
  | .neverSent => 0

/-- Supporting fact for the release accounting: on every disposition a
FLUSHED batch's backing storage is released exactly once — by the
transport's release callback when the enqueue succeeded, and by the
caller on retry exhaustion, on a non-transient send error, or when the
batch is never sent (read-only mode).  The buffer allocated before the
loop that is never flushed is accounted separately below. -/
theorem batch_release_once_claim (sendMode : Bool) (outcome : Nat → SendAttempt) :
    callerReleases (batchFate sendMode outcome)
      + transportReleases (batchFate sendMode outcome) = 1 ∧
    (batchFate sendMode outcome = .neverSent ↔ sendMode = false) := by
  constructor
  · cases sendMode with
    | false => rfl
    | true =>
        cases h : retryLoop outcome <;>
          simp [batchFate, h, callerReleases, transportReleases]
  · cases sendMode with
    | false => simp [batchFate]
    | true =>
        cases h : retryLoop outcome <;> simp [batchFate, h]

/-- Whole-stream buffer accounting inside the read-send loop.  Mirrors
processRootFile: per record the in-batch count rises; on a flush
(`events_in_batch >= BATCH_SIZE_EVENTS || i == nEntries - 1`, line 788)
the current buffer is disposed exactly once on its path (hand-off to the
transport whose callback frees it, or `delete batch`), counted in the
second component, and a fresh buffer is allocated only when records
remain (`if (i < nEntries - 1)`, lines 846-849), counted in the first
component.  Arguments: records still to read, current in-batch count. -/
def bufGo (cap : Nat) : Nat → Nat → Nat × Nat
  | 0, _ => (0, 0)
  | r + 1, count =>
      let c := count + 1
      if cap ≤ c ∨ r = 0 then
        let rest := bufGo cap r 0
        (if r = 0 then rest.1 else rest.1 + 1, rest.2 + 1)
      else
        bufGo cap r c

/-- Buffers allocated and buffers released over one whole stream of `n`
records at capacity `cap`: the first batch is allocated unconditionally
before the loop (`auto* batch = new std::vector<double>()`, line 763),
all further allocations and every release happen inside the loop. -/
def streamBufferCounts (n cap : Nat) : Nat × Nat :=
  ((bufGo cap n 0).1 + 1, (bufGo cap n 0).2)

theorem sendGo_length_pos (cap : Nat) : ∀ (r count : Nat),
    1 ≤ (sendGo cap (r + 1) count).length := by
  intro r
  induction r with
  | zero =>
      intro count
      rw [sendGo_one]
      rfl
  | succ s ih =>
      intro count
      by_cases hfull : cap ≤ count + 1
      · rw [show s + 1 + 1 = s + 2 from rfl, sendGo_step_full cap count s hfull]
        simp
      · rw [show s + 1 + 1 = s + 2 from rfl, sendGo_step_partial cap count s hfull]
        exact ih (count + 1)

theorem bufGo_eq_sendGo (cap : Nat) (hcap : 1 ≤ cap) :
    ∀ (r count : Nat), count < cap →
      bufGo cap (r + 1) count
        = ((sendGo cap (r + 1) count).length - 1, (sendGo cap (r + 1) count).length) := by
  intro r
  induction r with
  | zero =>
      intro count _
      rw [sendGo_one]
      simp [bufGo]
  | succ s ih =>
      intro count hcount
      by_cases hfull : cap ≤ count + 1
      · have hstep : bufGo cap (s + 2) count
            = ((bufGo cap (s + 1) 0).1 + 1, (bufGo cap (s + 1) 0).2 + 1) := by
          simp [bufGo, hfull]
        rw [show s + 1 + 1 = s + 2 from rfl, hstep,
            sendGo_step_full cap count s hfull, List.length_cons,
            ih 0 hcap]
        have hpos := sendGo_length_pos cap s 0
        rw [show ((sendGo cap (s + 1) 0).length - 1) + 1
              = (sendGo cap (s + 1) 0).length + 1 - 1 from by omega]
      · have hstep : bufGo cap (s + 2) count = bufGo cap (s + 1) (count + 1) := by
          simp [bufGo, hfull]
        rw [show s + 1 + 1 = s + 2 from rfl, hstep,
            sendGo_step_partial cap count s hfull]
        exact ih (count + 1) (by omega)

/-- Supporting fact: for a stream with at least one record the loop
balances — as many buffers are released as allocated, one per flushed
batch; the leak is confined to the zero-record path. -/
theorem stream_buffer_balance (n cap : Nat) (hn : 1 ≤ n) (hcap : 1 ≤ cap) :
    (streamBufferCounts n cap).1 = (streamBufferCounts n cap).2 ∧
    (streamBufferCounts n cap).2 = (batchSizes n cap).length := by
  cases n with
  | zero => omega
  | succ m =>
      have h := bufGo_eq_sendGo cap hcap m 0 (by omega)
      have hpos := sendGo_length_pos cap m 0
      rw [streamBufferCounts, batchSizes, h]
      constructor
      · simp only
        omega
      · rfl

/-- C4 (code bug): a stream whose tree has zero entries allocates the
pre-loop batch buffer at line 763, but every release site — the enqueue
hand-off and all three `delete batch` statements — sits inside the
per-record flush branch, which never runs: one buffer is allocated and
zero are released, for every batch capacity (shown concretely at
capacity 8192 records, i.e. a 1 MB bufsize), so the batch's backing
storage is not released exactly once on this execution path. -/
theorem batch_release_leak_bug :
    streamBufferCounts 0 8192 = (1, 0) ∧
    (streamBufferCounts 0 8192).1 ≠ (streamBufferCounts 0 8192).2 ∧
    (∀ cap : Nat, streamBufferCounts 0 cap = (1, 0)) := by
  refine ⟨rfl, by norm_num [streamBufferCounts, bufGo], fun cap => rfl⟩

/-! ## Shared atomic buffer-id counter
(global_buffer_id, e2sar_root.cpp lines 410-411; reset at line 975;
fetch_add at line 796)

`global_buffer_id` is one process-wide atomic counter, reset to 0 before
the workers start; every batch send does `global_buffer_id.fetch_add(1)`
to obtain its id.  The concurrent execution is modelled by its
linearization: the schedule is the list of stream indices in the order
their fetch_add operations took effect; the k-th fetch_add returns k. -/

/-- Assign ids along a schedule: the enqueue by stream `s` when the shared
counter holds `n` receives id `n`, and the counter becomes `n + 1`. -/
def assignGo : List Nat → Nat → List (Nat × Nat)
  | [], _ => []
  | s :: rest, n => (s, n) :: assignGo rest (n + 1)

/-- The (stream, bufferId) pairs produced by a full run: the counter
starts at 0. -/
def assignIds (sched : List Nat) : List (Nat × Nat) :=
  assignGo sched 0

/-- The ids assigned to stream `s`, in the stream's own send order. -/
def streamIds (s : Nat) (sched : List Nat) : List Nat :=
  ((assignIds sched).filter (fun p => p.1 == s)).map Prod.snd

theorem assignGo_map_snd (sched : List Nat) : ∀ n : Nat,
    (assignGo sched n).map Prod.snd = List.range' n sched.length := by
  induction sched with
  | nil => intro n; rfl
  | cons s rest ih => intro n; simp [assignGo, List.range', ih (n + 1)]

theorem assignGo_length (sched : List Nat) (n : Nat) :
    (assignGo sched n).length = sched.length := by
  have h := congrArg List.length (assignGo_map_snd sched n)
  simpa using h

theorem sum_map_add (l : List Nat) (f g : Nat → Nat) :
    (l.map (fun i => f i + g i)).sum = (l.map f).sum + (l.map g).sum := by
  induction l with
  | nil => rfl
  | cons a t ih => simp [ih]; omega

theorem sum_ite_not_mem (a : Nat) (l : List Nat) (ha : a ∉ l) :
    (l.map (fun i => if a = i then 1 else 0)).sum = 0 := by
  induction l with
  | nil => rfl
  | cons b t ih =>
      have hba : a ≠ b := fun hb => ha (hb ▸ List.mem_cons_self b t)
      simp [hba, ih (fun ht => ha (List.mem_cons_of_mem b ht))]

theorem sum_ite_single (a S : Nat) (ha : a < S) :
    ((List.range S).map (fun i => if a = i then 1 else 0)).sum = 1 := by
  induction S with
  | zero => exact absurd ha (Nat.not_lt_zero a)
  | succ T ih =>
      rw [List.range_succ, List.map_append, List.sum_append]
      by_cases hT : a < T
      · have hTa : a ≠ T := by omega
        simp [ih hT, hTa]
      · have haT : a = T := by omega
        subst haT
        rw [sum_ite_not_mem a (List.range a) (by simp)]
        simp

theorem count_partition (sched : List Nat) (S : Nat) (h : ∀ x ∈ sched, x < S) :
    ((List.range S).map (fun i => sched.count i)).sum = sched.length := by
  induction sched with
  | nil => simp
  | cons a t ih =>
      have hcount : ∀ i : Nat, (a :: t).count i = t.count i + (if a = i then 1 else 0) := by
        intro i
        simp [List.count_cons]
      have hrw : ((List.range S).map (fun i => (a :: t).count i))
          = (List.range S).map (fun i => t.count i + (if a = i then 1 else 0)) := by
        exact List.map_congr_left (fun i _ => hcount i)
      rw [hrw, sum_map_add, ih (fun x hx => h x (List.mem_cons_of_mem a hx)),
          sum_ite_single a S (h a (List.mem_cons_self a t))]
      simp

theorem assignIds_pairwise (sched : List Nat) :
    List.Pairwise (fun p q : Nat × Nat => p.2 < q.2) (assignIds sched) := by
  rw [← List.pairwise_map (f := Prod.snd)]
  rw [assignIds, assignGo_map_snd]
  exact List.pairwise_lt_range' 0 sched.length

/-- C6: every batch id comes from fetch-and-increment of the one shared
counter starting at 0, so the assigned ids are exactly 0..total-1 (hence
pairwise distinct), their number is the sum over streams of the batches
each stream sent, and within any one stream the ids are strictly
increasing in send order. -/
theorem buffer_id_unique_claim (S : Nat) (sched : List Nat)
    (hS : ∀ s ∈ sched, s < S) :
    (assignIds sched).map Prod.snd = List.range' 0 sched.length ∧
    ((assignIds sched).map Prod.snd).Nodup ∧
    (assignIds sched).length = ((List.range S).map (fun i => sched.count i)).sum ∧
    (∀ s : Nat, List.Pairwise (· < ·) (streamIds s sched)) := by
  refine ⟨assignGo_map_snd sched 0, ?_, ?_, ?_⟩
  · rw [assignIds, assignGo_map_snd sched 0]
    exact List.nodup_range' 0 sched.length 1 (by norm_num)
  · rw [assignIds, assignGo_length, count_partition sched S hS]
  · intro s
    have hp : List.Pairwise (fun p q : Nat × Nat => p.2 < q.2)
        ((assignIds sched).filter (fun p => p.1 == s)) :=
      (assignIds_pairwise sched).sublist (List.filter_sublist _)
    rw [streamIds, List.pairwise_map]
    exact hp

/-- Witness for C6: two streams interleaved as 0,1,0,1,1 get ids 0..4,
all distinct, 2 + 3 = 5 in total, and stream 1's ids 1 < 3 < 4 are
strictly increasing. -/
theorem buffer_id_unique_claim_witness :
    (assignIds [0, 1, 0, 1, 1]).map Prod.snd = List.range' 0 5 ∧
    ((assignIds [0, 1, 0, 1, 1]).map Prod.snd).Nodup ∧
    (assignIds [0, 1, 0, 1, 1]).length
      = ((List.range 2).map (fun i => List.count i [0, 1, 0, 1, 1])).sum ∧
    List.Pairwise (· < ·) (streamIds 1 [0, 1, 0, 1, 1]) := by
  have h := buffer_id_unique_claim 2 [0, 1, 0, 1, 1] (by decide)
  exact ⟨h.1, h.2.1, h.2.2.1, h.2.2.2 1⟩

/-! ## Sender-side exit status (main, e2sar_root.cpp lines 1006-1032)

After joining all worker futures, main counts failed streams
(`failure_count`), reads the segmenter's statistics (`send_stats.errCnt`)
and, when `errCnt > 0`, prints a warning that errors occurred during sending.
The exit status, however, is computed solely from the stream results:
`return failure_count > 0 ? 1 : 0;`. -/

/-- failure_count: the number of worker futures that returned false. -/
def countFailures (results : List Bool) : Nat :=
  results.count false

/-- The sender/read-only mode exit status as computed by main: it takes
the per-stream results and the segmenter's reported error count (which
main reads and prints but does not fold into the status). -/
def senderExitStatus (results : List Bool) (errCnt : Nat) : Nat :=
  if 0 < countFailures results then 1 else 0

/-- C1 counterexample: one input stream that succeeds while the segmenter
reports 1 terminal send error.  The claim requires exit status 1 (nonzero
reported error count); the code returns 0. -/
theorem sender_exit_counterexample :
    senderExitStatus [true] 1 = 0 ∧ (0 : Nat) ≠ 1 := by
  constructor
  · rfl
  · norm_num

theorem count_false_eq_zero_iff (results : List Bool) :
    countFailures results = 0 ↔ ∀ r ∈ results, r = true := by
  rw [countFailures, List.count_eq_zero]
  constructor
  · intro h r hr
    cases r with
    | true => rfl
    | false => exact absurd hr h
  · intro h hf
    exact Bool.false_ne_true (h false hf)

/-- C1 amended: with at least one input stream, the process exit status
is 0 if and only if every stream succeeded; the segmenter's reported
error count does not influence the exit status (a nonzero count only
prints a warning). -/
theorem sender_exit_claim (results : List Bool) (errCnt : Nat)
    (hne : results ≠ []) :
    (senderExitStatus results errCnt = 0 ↔ ∀ r ∈ results, r = true) ∧
    senderExitStatus results errCnt = senderExitStatus results 0 := by
  constructor
  · rw [senderExitStatus]
    by_cases h : 0 < countFailures results
    · rw [if_pos h]
      simp only [one_ne_zero, false_iff]
      intro hall
      rw [← count_false_eq_zero_iff] at hall
      omega
    · rw [if_neg h]
      simp only [true_iff]
      rw [← count_false_eq_zero_iff]
      omega
  · rfl

/-- Witness for C1 (amended): two successful streams and five reported
transport errors still exit 0. -/
theorem sender_exit_claim_witness :
    (senderExitStatus [true, true] 5 = 0 ↔ ∀ r ∈ [true, true], r = true) ∧
    senderExitStatus [true, true] 5 = senderExitStatus [true, true] 0 :=
  sender_exit_claim [true, true] 5 (by decide)

/-! ## Receive loop (receiveEvents, e2sar_root.cpp lines 427-533)

Each iteration calls `recvEvent(..., 1000)`.  An error result or the
no-event marker (-1) just continues the loop; a delivered record bumps
events_received and total_bytes, is written to a file named from the
output pattern (a failed write bumps write_errors, a successful one
events_written), and the transport-owned buffer is freed with `delete[]`
after the write attempt on both branches.  After the loop the lost-event
queue is drained and the function returns `write_errors == 0`; main then
returns `success ? 0 : 1`.  The filename generator is abstracted as a
function of the event number (receiveEvents uses
formatFilename(output_pattern, event_num), analysed separately). -/

/-- The receive-side counters (struct ReceiveStats). -/
structure ReceiveStats where
  events_received : Nat
  events_written : Nat
  write_errors : Nat
  total_bytes : Nat
deriving DecidableEq, Repr

/-- All counters start at zero. -/
def initialReceiveStats : ReceiveStats := ⟨0, 0, 0, 0⟩

/-- The outcome of one recvEvent poll: an error result, the no-event
marker (result.value() == -1), or a delivered record together with the
outcome of the subsequent write attempt. -/
inductive RecvPoll where
  | recvErr
  | noneAvail
  | delivered (bytes : List Nat) (eventNum : Nat) (writeOk : Bool)

/-- One lost-record report from the reassembler: event number, data id,
number of fragments received (Reassembler::get_LostEvent). -/
structure LostReport where
  eventNum : Nat
  dataId : Nat
  fragsReceived : Nat
deriving DecidableEq, Repr

/-- Receive-loop state: the counters, the written files (path to
content), and how many transport-owned buffers have been freed. -/
structure RecvState where
  stats : ReceiveStats
  files : List Char → Option (List Nat)
  freedBuffers : Nat

/-- Empty state before the loop. -/
def initialRecvState : RecvState := ⟨initialReceiveStats, fun _ => none, 0⟩

/-- writeMemoryMappedFile on success: the file is created/truncated and
holds exactly the written bytes (O_CREAT | O_TRUNC). -/
def writeStoreFn (files : List Char → Option (List Nat)) (name : List Char)
    (data : List Nat) : List Char → Option (List Nat) :=
  fun f => if f = name then some data else files f

/-- One iteration of the receive loop body. -/
def recvStep (fname : Nat → List Char) (st : RecvState) : RecvPoll → RecvState
  | .recvErr => st
  | .noneAvail => st
  | .delivered bytes num ok =>
      let stats1 : ReceiveStats :=
        { st.stats with
          events_received := st.stats.events_received + 1
          total_bytes := st.stats.total_bytes + bytes.length }
      let stats2 : ReceiveStats :=
        if ok then { stats1 with events_written := stats1.events_written + 1 }
        else { stats1 with write_errors := stats1.write_errors + 1 }
      let files2 := if ok then writeStoreFn st.files (fname num) bytes else st.files
      { stats := stats2, files := files2, freedBuffers := st.freedBuffers + 1 }

/-- The receive loop over a finite trace of poll outcomes (the loop exits
when the cooperative keep_receiving flag is cleared; the trace is the
sequence of iterations until then). -/
def runRecv (fname : Nat → List Char) (trace : List RecvPoll) (st : RecvState) : RecvState :=
  trace.foldl (recvStep fname) st

/-- The post-loop lost-event drain: get_LostEvent is polled until it
reports an error (queue empty), each report pushed onto the list. -/
def drainLoop : List LostReport → List LostReport → List LostReport
  | [], acc => acc
  | r :: rest, acc => drainLoop rest (acc ++ [r])

/-- The collected lost-event reports for a queue `q`. -/
def drainLostEvents (q : List LostReport) : List LostReport :=
  drainLoop q []

/-- receiveEvents: runs the loop, drains the lost-record queue, and
returns whether write_errors == 0, together with the report list. -/
def receiveEventsModel (fname : Nat → List Char) (trace : List RecvPoll)
    (lostQ : List LostReport) : Bool × List LostReport :=
  ((runRecv fname trace initialRecvState).stats.write_errors == 0,
   drainLostEvents lostQ)

/-- The receiver-mode exit status in main: `success ? 0 : 1`. -/
def recvExitStatus (fname : Nat → List Char) (trace : List RecvPoll)
    (lostQ : List LostReport) : Nat :=
  if (receiveEventsModel fname trace lostQ).1 then 0 else 1

theorem drainLoop_eq (q : List LostReport) : ∀ acc, drainLoop q acc = acc ++ q := by
  induction q with
  | nil => intro acc; simp [drainLoop]
  | cons r rest ih => intro acc; rw [drainLoop, ih]; simp

/-- C7: after the loop stops the lost-record queue is drained until
empty, and the final report list is exactly the queue contents: any
record the engine reported once appears in the list (with its sequence
number, channel id and fragment count) exactly once. -/
theorem lost_drain_claim (q : List LostReport) :
    drainLostEvents q = q ∧
    (∀ r : LostReport, q.count r = 1 → (drainLostEvents q).count r = 1) := by
  have h : drainLostEvents q = q := by
    rw [drainLostEvents, drainLoop_eq]
    simp
  exact ⟨h, fun r hr => by rw [h]; exact hr⟩

/-- Witness for C7: a queue holding reports (5,1,3) and (7,2,0) drains to
exactly that list, and report (5,1,3) appears exactly once. -/
theorem lost_drain_claim_witness :
    drainLostEvents [⟨5, 1, 3⟩, ⟨7, 2, 0⟩] = [⟨5, 1, 3⟩, ⟨7, 2, 0⟩] ∧
    List.count (⟨5, 1, 3⟩ : LostReport) [⟨5, 1, 3⟩, ⟨7, 2, 0⟩] = 1 ∧
    (drainLostEvents [⟨5, 1, 3⟩, ⟨7, 2, 0⟩]).count ⟨5, 1, 3⟩ = 1 :=
  ⟨(lost_drain_claim _).1, by decide, (lost_drain_claim _).2 ⟨5, 1, 3⟩ (by decide)⟩

/-- C8: a poll timeout (error result or no-event marker) leaves the whole
state — counters and files — unchanged and frees no buffer; a delivered
record whose write fails bumps write_errors by exactly one; the delivered
record's buffer is freed exactly once whether the write succeeded or
failed; and in every case the loop goes on to process the rest of the
trace. -/
theorem recv_iteration_claim (fname : Nat → List Char) (st : RecvState)
    (bytes : List Nat) (num : Nat) (p : RecvPoll) (rest : List RecvPoll) :
    recvStep fname st .recvErr = st ∧
    recvStep fname st .noneAvail = st ∧
    (recvStep fname st (.delivered bytes num false)).stats.write_errors
      = st.stats.write_errors + 1 ∧
    (recvStep fname st (.delivered bytes num false)).stats.events_written
      = st.stats.events_written ∧
    (recvStep fname st (.delivered bytes num false)).files = st.files ∧
    (recvStep fname st (.delivered bytes num false)).freedBuffers = st.freedBuffers + 1 ∧
    (recvStep fname st (.delivered bytes num true)).freedBuffers = st.freedBuffers + 1 ∧
    runRecv fname (p :: rest) st = runRecv fname rest (recvStep fname st p) := by
  refine ⟨rfl, rfl, rfl, rfl, rfl, rfl, rfl, rfl⟩

/-- C10: the receiver-mode exit status is 0 exactly when write_errors is
0 at loop exit; it does not depend on the lost-record queue, and an empty
run (zero records received) exits 0. -/
theorem recv_exit_claim (fname : Nat → List Char) (trace : List RecvPoll)
    (lostQ lostQ2 : List LostReport) :
    (recvExitStatus fname trace lostQ = 0
      ↔ (runRecv fname trace initialRecvState).stats.write_errors = 0) ∧
    recvExitStatus fname trace lostQ = recvExitStatus fname trace lostQ2 ∧
    recvExitStatus fname [] lostQ = 0 := by
  refine ⟨?_, rfl, rfl⟩
  rw [recvExitStatus, receiveEventsModel]
  by_cases h : (runRecv fname trace initialRecvState).stats.write_errors = 0
  · simp [h]
  · simp [h]

/-! ## Output filename formatter (formatFilename, e2sar_root.cpp lines 167-212)

formatFilename scans the pattern for brace-colon specifiers.  When none
remains it copies the rest of the pattern verbatim.  For a specifier it
locates the closing brace, extracts format_spec as
pattern.substr(start + 2, end - start - 3) -- an unsigned subtraction:
when end equals start + 2 the length wraps around and substr takes the
rest of the string -- parses a field width with std::stoi on all but the
last character when the spec has at least two characters (std::stoi
throws when no digits can be parsed, modelled as the .error case), pads
the decimal event number on the left with the fill character to that
width, and continues after the closing brace.  The fill character is
initialized to a zero and both branches of the source keep it a zero.
Strings are modelled as lists of characters. -/

/-- Index of the first occurrence of `needle` in the list, as
std::string::find computes it. -/
def findSub (needle : List Char) : List Char → Option Nat
  | [] => if needle.isEmpty then some 0 else none
  | c :: rest =>
      if needle.isPrefixOf (c :: rest) then some 0
      else (findSub needle rest).map (· + 1)

/-- The C library isspace predicate, as skipped by std::stoi. -/
def isSpaceChar (c : Char) : Bool :=
  c = ' ' ∨ c = '\t' ∨ c = '\n' ∨ c = '\x0b' ∨ c = '\x0c' ∨ c = '\r'

/-- Accumulate the value of a maximal leading digit run. -/
def parseNatAux : List Char → Nat → Nat
  | [], acc => acc
  | c :: rest, acc =>
      if c.isDigit then parseNatAux rest (acc * 10 + (c.toNat - 48)) else acc

/-- The digit run std::stoi consumes: fails when the first character is
not a digit. -/
def parseNatModel : List Char → Option Nat
  | [] => none
  | c :: rest => if c.isDigit then some (parseNatAux (c :: rest) 0) else none

/-- std::stoi: skip whitespace, accept an optional sign, then require at
least one digit; .none models the thrown std::invalid_argument (the
overflow exception for out-of-int values is not modelled). -/
def stoiModel (s : List Char) : Option Int :=
  match s.dropWhile isSpaceChar with
  | '+' :: rest => (parseNatModel rest).map Int.ofNat
  | '-' :: rest => (parseNatModel rest).map (fun n => -(Int.ofNat n))
  | rest => (parseNatModel rest).map Int.ofNat

/-- The fill character: initialized to a zero and never changed (both
branches of the width parse keep it). -/
def fillChar : Char := '0'

/-- Streaming the event number through setfill(fillChar) and setw(width):
the decimal digits of the event number, left-padded to the width (no
padding when the width is not larger than the digit count, including
negative widths). -/
def padNum (width : Int) (num : Nat) : List Char :=
  let s := (toString num).toList
  if (s.length : Int) < width then
    List.replicate (width - (s.length : Int)).toNat fillChar ++ s
  else s

theorem findSub_le (needle : List Char) : ∀ (l : List Char) (i : Nat),
    findSub needle l = some i → i + needle.length ≤ l.length := by
  intro l
  induction l with
  | nil =>
      intro i h
      rw [findSub] at h
      by_cases he : needle.isEmpty
      · rw [if_pos he] at h
        cases h
        simp [List.isEmpty_iff] at he
        simp [he]
      · rw [if_neg he] at h
        cases h
  | cons c rest ih =>
      intro i h
      rw [findSub] at h
      by_cases hp : needle.isPrefixOf (c :: rest)
      · rw [if_pos hp] at h
        cases h
        rw [ List.isPrefixOf_iff_prefix] at hp
        simpa using hp.length_le
      · rw [if_neg hp] at h
        rw [Option.map_eq_some'] at h
        obtain ⟨i2, hi2, hadd⟩ := h
        have := ih i2 hi2
        simp only [List.length_cons]
        omega

/-- formatFilename: format the event number into the output pattern. -/
def formatFilename (pattern : List Char) (event_num : Nat) : Except Unit (List Char) :=
  match hfind : findSub ['{', ':'] pattern with
  | none => .ok pattern
  | some start =>
      let fromBrace := pattern.drop start
      match findSub ['}'] fromBrace with
      | none => .ok (pattern.take start ++ fromBrace)
      | some j =>
          let spec := if 3 ≤ j then (fromBrace.drop 2).take (j - 3) else fromBrace.drop 2
          let widthE : Except Unit Int :=
            if 2 ≤ spec.length then
              match stoiModel (spec.take (spec.length - 1)) with
              | none => .error ()
              | some w => .ok w
            else .ok 0
          match widthE with
          | .error e => .error e
          | .ok width =>
              match formatFilename ((pattern.drop start).drop (j + 1)) event_num with
              | .error e => .error e
              | .ok restPart =>
                  .ok (pattern.take start ++ padNum width event_num ++ restPart)
termination_by pattern.length
decreasing_by
  have hle := findSub_le ['{', ':'] pattern start hfind
  simp only [List.length_cons, List.length_nil, List.length_drop] at hle ⊢
  omega

/-- C9: a pattern with no brace-colon substring comes back from formatFilename
unchanged for every event number, so every received record is persisted
to the same path and each successful write overwrites the previous one
(writeMemoryMappedFile opens with O_TRUNC, modelled by writeStoreFn). -/
theorem plain_pattern_claim (pattern : List Char) (num num2 : Nat)
    (hplain : findSub ['{', ':'] pattern = none)
    (store : List Char → Option (List Nat)) (name : List Char) (c c2 : List Nat) :
    formatFilename pattern num = .ok pattern ∧
    formatFilename pattern num = formatFilename pattern num2 ∧
    writeStoreFn (writeStoreFn store name c) name c2 name = some c2 := by
  have h1 : ∀ m : Nat, formatFilename pattern m = .ok pattern := by
    intro m
    unfold formatFilename
    split
    · rfl
    · rename_i start heq
      rw [hplain] at heq
      cases heq
  refine ⟨h1 num, by rw [h1 num, h1 num2], ?_⟩
  rw [writeStoreFn, writeStoreFn]
  simp

/-- The fixed pattern out.dat as a character list, for the C9 witness. -/
def plainPatternExample : List Char :=
  ['o', 'u', 't', '.', 'd', 'a', 't']

/-- Witness for C9: the fixed pattern out.dat is returned unchanged for
event numbers 3 and 8, and a second write to the same path replaces the
first record. -/
theorem plain_pattern_claim_witness :
    formatFilename plainPatternExample 3 = .ok plainPatternExample ∧
    formatFilename plainPatternExample 3 = formatFilename plainPatternExample 8 ∧
    writeStoreFn (writeStoreFn (fun _ => none) plainPatternExample [1, 2])
      plainPatternExample [3, 4] plainPatternExample = some [3, 4] :=
  plain_pattern_claim plainPatternExample 3 8 (by decide) (fun _ => none)
    plainPatternExample [1, 2] [3, 4]
